import Mathlib

/-!
Verification of the pixel-shader lighting core of this repository.

The shading-language source (the shader include file and the pixel shader
entry point) is shallowly embedded here: HLSL `float` scalars become real
numbers, `float2`/`float3`/`float4` become record types with componentwise
arithmetic, and the per-pixel control flow (the light accumulation loop, the
cascade-border correction, the cube-face selection loop) becomes explicit
folds and conditionals over those values.

A few helpers used by the pixel shader are declared or defined outside the
available source (the `castsShadows` flag on the light record, the
`cubeFaceDirections` table, and the `when_lt`/`when_gt`/`or_all` arithmetic
comparison helpers); those are modelled from the specification and are
marked as such in their doc comments.
-/

noncomputable section

namespace Shader

/-- A 2-component vector of reals (HLSL `float2`). -/
@[ext]
structure Vec2 where
  x : ℝ
  y : ℝ

/-- A 3-component vector of reals (HLSL `float3`). -/
@[ext]
structure Vec3 where
  x : ℝ
  y : ℝ
  z : ℝ

/-- A 4-component vector of reals (HLSL `float4`). -/
@[ext]
structure Vec4 where
  x : ℝ
  y : ℝ
  z : ℝ
  w : ℝ

namespace Vec3

instance : Zero Vec3 := ⟨⟨0, 0, 0⟩⟩
instance : One Vec3 := ⟨⟨1, 1, 1⟩⟩
instance : Add Vec3 := ⟨fun a b => ⟨a.x + b.x, a.y + b.y, a.z + b.z⟩⟩
instance : Sub Vec3 := ⟨fun a b => ⟨a.x - b.x, a.y - b.y, a.z - b.z⟩⟩
instance : Neg Vec3 := ⟨fun a => ⟨-a.x, -a.y, -a.z⟩⟩
instance : Mul Vec3 := ⟨fun a b => ⟨a.x * b.x, a.y * b.y, a.z * b.z⟩⟩
instance : HMul Vec3 ℝ Vec3 := ⟨fun a c => ⟨a.x * c, a.y * c, a.z * c⟩⟩
instance : HMul ℝ Vec3 Vec3 := ⟨fun c a => ⟨c * a.x, c * a.y, c * a.z⟩⟩
instance : HDiv Vec3 ℝ Vec3 := ⟨fun a c => ⟨a.x / c, a.y / c, a.z / c⟩⟩

@[simp] theorem zero_x : (0 : Vec3).x = 0 := rfl
@[simp] theorem zero_y : (0 : Vec3).y = 0 := rfl
@[simp] theorem zero_z : (0 : Vec3).z = 0 := rfl
@[simp] theorem one_x : (1 : Vec3).x = 1 := rfl
@[simp] theorem one_y : (1 : Vec3).y = 1 := rfl
@[simp] theorem one_z : (1 : Vec3).z = 1 := rfl
@[simp] theorem add_x (a b : Vec3) : (a + b).x = a.x + b.x := rfl
@[simp] theorem add_y (a b : Vec3) : (a + b).y = a.y + b.y := rfl
@[simp] theorem add_z (a b : Vec3) : (a + b).z = a.z + b.z := rfl
@[simp] theorem sub_x (a b : Vec3) : (a - b).x = a.x - b.x := rfl
@[simp] theorem sub_y (a b : Vec3) : (a - b).y = a.y - b.y := rfl
@[simp] theorem sub_z (a b : Vec3) : (a - b).z = a.z - b.z := rfl
@[simp] theorem neg_x (a : Vec3) : (-a).x = -a.x := rfl
@[simp] theorem neg_y (a : Vec3) : (-a).y = -a.y := rfl
@[simp] theorem neg_z (a : Vec3) : (-a).z = -a.z := rfl
@[simp] theorem mul_x (a b : Vec3) : (a * b).x = a.x * b.x := rfl
@[simp] theorem mul_y (a b : Vec3) : (a * b).y = a.y * b.y := rfl
@[simp] theorem mul_z (a b : Vec3) : (a * b).z = a.z * b.z := rfl
@[simp] theorem smul_x (a : Vec3) (c : ℝ) : (a * c).x = a.x * c := rfl
@[simp] theorem smul_y (a : Vec3) (c : ℝ) : (a * c).y = a.y * c := rfl
@[simp] theorem smul_z (a : Vec3) (c : ℝ) : (a * c).z = a.z * c := rfl
@[simp] theorem smul_x2 (c : ℝ) (a : Vec3) : (c * a).x = c * a.x := rfl
@[simp] theorem smul_y2 (c : ℝ) (a : Vec3) : (c * a).y = c * a.y := rfl
@[simp] theorem smul_z2 (c : ℝ) (a : Vec3) : (c * a).z = c * a.z := rfl
@[simp] theorem div_x (a : Vec3) (c : ℝ) : (a / c).x = a.x / c := rfl
@[simp] theorem div_y (a : Vec3) (c : ℝ) : (a / c).y = a.y / c := rfl
@[simp] theorem div_z (a : Vec3) (c : ℝ) : (a / c).z = a.z / c := rfl

theorem add_zero (a : Vec3) : a + 0 = a := by ext <;> simp
theorem zero_smul (c : ℝ) : (0 : Vec3) * c = 0 := by ext <;> simp

end Vec3

/-- HLSL `saturate`: clamp a scalar to the interval from 0 to 1. -/
def saturate (v : ℝ) : ℝ := min (max v 0) 1

theorem saturate_nonneg (v : ℝ) : 0 ≤ saturate v :=
  le_min (le_max_right v 0) zero_le_one

theorem saturate_le_one (v : ℝ) : saturate v ≤ 1 := min_le_right _ _

@[simp] theorem saturate_one : saturate 1 = 1 := by
  simp [saturate]

/-- Componentwise `saturate` on a `float3`. -/
def saturate3 (v : Vec3) : Vec3 := ⟨saturate v.x, saturate v.y, saturate v.z⟩

/-- HLSL `dot` on `float3`. -/
def dot (a b : Vec3) : ℝ := a.x * b.x + a.y * b.y + a.z * b.z

/-- HLSL `length` on `float3`. -/
def length (v : Vec3) : ℝ := Real.sqrt (dot v v)

/-- HLSL `normalize` on `float3`: the vector divided by its length. -/
def normalize (v : Vec3) : Vec3 := v / length v

/-- HLSL `distance` on `float3`: the length of the difference. -/
def distance (a b : Vec3) : ℝ := length (b - a)

/-- HLSL scalar broadcast of a `float` to a `float3`
(the implicit cast used when a scalar expression is returned as `float3`). -/
def splat (c : ℝ) : Vec3 := ⟨c, c, c⟩

/-- HLSL `lerp` on `float3` with a `float3` interpolant:
componentwise `a + t * (b - a)`. -/
def lerp3 (a b t : Vec3) : Vec3 := a + t * (b - a)

/-- Definition `LIGHT_TYPE_DIRECTIONAL` from the shader include file. -/
def LIGHT_TYPE_DIRECTIONAL : Int := 0

/-- Definition `LIGHT_TYPE_POINT` from the shader include file. -/
def LIGHT_TYPE_POINT : Int := 1

/-- Definition `LIGHT_TYPE_SPOT` from the shader include file. -/
def LIGHT_TYPE_SPOT : Int := 2

/-- Definition `MIN_ROUGHNESS` from the shader include file:
minimum roughness for when the specular-distribution denominator
goes to zero. -/
def MIN_ROUGHNESS : ℝ := 0.0000001

/-- Definition `PI` from the shader include file (a literal float constant). -/
def PI : ℝ := 3.14159265359

/-- The `Light` record from the shader include file.  The `padding` field
(pure 16-byte-alignment layout) is omitted.  The pixel shader additionally
reads a `castsShadows` flag on each light which is absent from the struct in
the available include file; that field is modelled from the spec. -/
structure Light where
  type : Int
  direction : Vec3
  range : ℝ
  position : Vec3
  intensity : ℝ
  color : Vec3
  spotFalloff : ℝ
  /-- Modelled from the spec: a boolean "casts shadows" flag on each light,
  read by the accumulation loop of the pixel shader but not declared in the
  `Light` struct of the available shader include file. -/
  castsShadows : Bool

/-- Definition `LightenToGamma` from the shader include file:
componentwise `pow(color, 1/2.2)`. -/
def LightenToGamma (color : Vec3) : Vec3 :=
  ⟨color.x ^ ((1 : ℝ) / 2.2), color.y ^ ((1 : ℝ) / 2.2), color.z ^ ((1 : ℝ) / 2.2)⟩

/-- Definition `Diffuse` from the shader include file: the clamped cosine term,
broadcast to `float3` by the return type. -/
def Diffuse (dirToLight normal : Vec3) : Vec3 :=
  splat (saturate (dot normal dirToLight))

/-- Definition `Attenuate` from the shader include file: squared clamped
inverse-square-like point-light attenuation. -/
def Attenuate (light : Light) (worldPos : Vec3) : ℝ :=
  let dist := distance light.position worldPos
  let att := saturate (1 - dist * dist / (light.range * light.range))
  att * att

/-- Definition `DiffuseEnergyConserve` from the shader include file. -/
def DiffuseEnergyConserve (diffuse specular : Vec3) (metalness : ℝ) : Vec3 :=
  diffuse * ((1 - saturate3 specular) * (1 - metalness))

/-- Definition `SpecDistribution` from the shader include file:
GGX (Trowbridge-Reitz) normal distribution with the `MIN_ROUGHNESS` clamp. -/
def SpecDistribution (n h : Vec3) (roughness : ℝ) : ℝ :=
  let NdotH := saturate (dot n h)
  let NdotH2 := NdotH * NdotH
  let a := roughness * roughness
  let a2 := max (a * a) MIN_ROUGHNESS
  let denomToSquare := NdotH2 * (a2 - 1) + 1
  a2 / (PI * denomToSquare * denomToSquare)

/-- The denominator of `SpecDistribution`, computed by the same steps. -/
def SpecDistributionDenom (n h : Vec3) (roughness : ℝ) : ℝ :=
  let NdotH := saturate (dot n h)
  let NdotH2 := NdotH * NdotH
  let a := roughness * roughness
  let a2 := max (a * a) MIN_ROUGHNESS
  let denomToSquare := NdotH2 * (a2 - 1) + 1
  PI * denomToSquare * denomToSquare

/-- Definition `Fresnel` from the shader include file: Schlick approximation. -/
def Fresnel (v h f0 : Vec3) : Vec3 :=
  let VdotH := saturate (dot v h)
  f0 + (1 - f0) * ((1 - VdotH) ^ (5 : ℕ))

/-- Definition `GeometricShadowing` from the shader include file: Schlick-GGX. -/
def GeometricShadowing (n v : Vec3) (roughness : ℝ) : ℝ :=
  let a := roughness * roughness
  let k := a / 2
  let NdotV := saturate (dot n v)
  NdotV / (NdotV * (1 - k) + k)

/-- Definition `MicrofacetBRDF` from the shader include file. -/
def MicrofacetBRDF (n l v : Vec3) (roughness : ℝ) (specColor : Vec3) : Vec3 :=
  let h := normalize (v + l)
  let D := SpecDistribution n h roughness
  let F := Fresnel v h specColor
  let G := GeometricShadowing n v roughness * GeometricShadowing n l roughness
  (D * F * G) / (4 * max (dot n v) (dot n l))

/-- Definition `ColorFromLight` from the shader include file: per-light radiance,
dispatching on the light type tag; the `switch` becomes a conditional chain
whose final branch is the `default` case returning zero. -/
def ColorFromLight (light : Light) (normal worldPos view surfaceColor
    specularColor : Vec3) (roughness metallic : ℝ) : Vec3 :=
  if light.type = LIGHT_TYPE_DIRECTIONAL then
    let dirToLight := normalize (-light.direction)
    let diffuse := Diffuse dirToLight normal
    let specular := MicrofacetBRDF normal dirToLight view roughness specularColor
    let diffuse := DiffuseEnergyConserve diffuse specular metallic
    (diffuse * surfaceColor + specular) * light.intensity * light.color
  else if light.type = LIGHT_TYPE_POINT then
    let dirToLight := normalize (light.position - worldPos)
    let diffuse := Diffuse dirToLight normal
    let specular := MicrofacetBRDF normal dirToLight view roughness specularColor
    let diffuse := DiffuseEnergyConserve diffuse specular metallic
    (diffuse * surfaceColor + specular) * light.intensity * light.color *
      Attenuate light worldPos
  else
    (0 : Vec3)

/-! Pixel shader entry point (`main`): the pieces of the per-pixel body
that the verified properties are about. -/

/-- The texture-coordinate transform at the top of the pixel shader:
`input.uv /= uvScale; input.uv.x -= uvOffset.x; input.uv.y += uvOffset.y;`. -/
def transformUV (uv : Vec2) (uvScale : ℝ) (uvOffset : Vec2) : Vec2 :=
  let uv1 : Vec2 := ⟨uv.x / uvScale, uv.y / uvScale⟩
  let uv2 : Vec2 := ⟨uv1.x - uvOffset.x, uv1.y⟩
  ⟨uv2.x, uv2.y + uvOffset.y⟩

/-- The per-pixel roughness selection in the pixel shader: the flat uniform,
replaced by the texture sample when the flat value is the sentinel `-1`,
then floor-clamped to `MIN_ROUGHNESS`. -/
def selectRoughness (roughnessFlat texValue : ℝ) : ℝ :=
  let roughness := if roughnessFlat = -1 then texValue else roughnessFlat
  max roughness MIN_ROUGHNESS

/-- The per-pixel metallic selection in the pixel shader: the flat uniform,
replaced by the texture sample when the flat value is the sentinel `-1`. -/
def selectMetallic (metallicFlat texValue : ℝ) : ℝ :=
  if metallicFlat = -1 then texValue else metallicFlat

/-- The shadow-map UV computed from a shadow-space position in the pixel
shader: perspective divide, remap from the -1..1 range to the 0..1 range,
and flip of the y axis. -/
def computeCascadeUV (pos : Vec4) : Vec2 :=
  let u := pos.x / pos.w * 0.5 + 0.5
  let v := pos.y / pos.w * 0.5 + 0.5
  ⟨u, 1 - v⟩

/-- Modelled from the spec: the cascade-border advance condition of the
pixel shader.  The source expresses it arithmetically through the helpers
`when_lt`, `when_gt` and `or_all`, which are not in the available source;
the spec (and the commented-out conditional next to the arithmetic form)
states it as: the shadow UV falls within 1% of any border and a next
cascade exists. -/
def cascadeBorderHit (uv : Vec2) : Prop :=
  uv.x < 0.01 ∨ uv.x > 0.99 ∨ uv.y < 0.01 ∨ uv.y > 0.99

instance (uv : Vec2) : Decidable (cascadeBorderHit uv) := by
  unfold cascadeBorderHit
  infer_instance

/-- The directional-cascade shadow lookup data of the pixel shader: from
the interpolated shadow-space positions and an initially selected cascade
index, apply the border correction and recompute the shadow UV and the
depth from the finally selected cascade.  Returns the final cascade index,
the shadow UV and the depth from the light. -/
def cascadeCorrect (shadowCascadePositions : ℕ → Vec4) (numShadowCascade : ℕ)
    (cascadeIndex : ℕ) : ℕ × Vec2 × ℝ :=
  let uv := computeCascadeUV (shadowCascadePositions cascadeIndex)
  let idx := if cascadeBorderHit uv ∧ cascadeIndex + 1 < numShadowCascade then
    cascadeIndex + 1 else cascadeIndex
  let uv2 := computeCascadeUV (shadowCascadePositions idx)
  let depth := (shadowCascadePositions idx).z / (shadowCascadePositions idx).w
  (idx, uv2, depth)

/-- Modelled from the spec: the `cubeFaceDirections` table of the six
canonical cube-face axis directions, indexed in the standard cube-face
order +X, -X, +Y, -Y, +Z, -Z.  The table is read by the pixel shader but
is not defined in the available source. -/
def cubeFaceDirections (j : ℕ) : Vec3 :=
  match j with
  | 0 => ⟨1, 0, 0⟩
  | 1 => ⟨-1, 0, 0⟩
  | 2 => ⟨0, 1, 0⟩
  | 3 => ⟨0, -1, 0⟩
  | 4 => ⟨0, 0, 1⟩
  | _ => ⟨0, 0, -1⟩

/-- One iteration of the cube-face selection loop in the pixel shader:
state is the running `(maxDot, directionIndex)` pair, updated from the dot
product with face `j` exactly as in the loop body. -/
def faceStep (u : Vec3) (st : ℝ × ℕ) (j : ℕ) : ℝ × ℕ :=
  let dotProduct := dot u (cubeFaceDirections j)
  (max dotProduct st.1, if dotProduct ≥ st.1 then j else st.2)

/-- The cube-face selection loop in the pixel shader, run over all six
faces for the direction `u` from the light to the pixel, starting from
`maxDot = 0` and `directionIndex = 0`. -/
def faceSelect (u : Vec3) : ℕ :=
  ((List.range 6).foldl (faceStep u) (0, 0)).2

/-- The `directionIndex` computed for a point light in the accumulation
loop: the selection loop runs only while the light casts shadows (the loop
condition is `j < 6 && lights[i].castsShadows`), otherwise the index keeps
its initial value 0. -/
def pointDirectionIndex (light : Light) (worldPos : Vec3) : ℕ :=
  if light.castsShadows then
    faceSelect (normalize (worldPos - light.position))
  else 0

/-- The per-pixel read-only context of the accumulation loop: the surface
inputs fed to `ColorFromLight` and the precomputed shadow comparison
results (`shadowAmountWorld` indexed by world shadow-map slot, and the
directional `shadowAmountCascade`). -/
structure ShadeCtx where
  normal : Vec3
  worldPosition : Vec3
  view : Vec3
  surfaceColor : Vec3
  specularColor : Vec3
  roughness : ℝ
  metallic : ℝ
  shadowAmountWorld : ℕ → ℝ
  shadowAmountCascade : ℝ

/-- One iteration of the light accumulation loop in the pixel shader:
state is the running `(finalColor, shadowIndex)` pair; the `switch` on the
light type becomes a conditional chain whose final branch is the `default`
case leaving the state unchanged. -/
def lightStep (C : ShadeCtx) (s : Vec3 × ℕ) (light : Light) : Vec3 × ℕ :=
  if light.type = LIGHT_TYPE_POINT then
    let unshadowedColor := ColorFromLight light C.normal C.worldPosition C.view
      C.surfaceColor C.specularColor C.roughness C.metallic
    let directionIndex := pointDirectionIndex light C.worldPosition
    (s.1 + unshadowedColor *
        (if light.castsShadows then C.shadowAmountWorld (s.2 + directionIndex) else 1),
      if light.castsShadows then s.2 + 6 else s.2)
  else if light.type = LIGHT_TYPE_SPOT then
    (s.1 + ColorFromLight light C.normal C.worldPosition C.view
        C.surfaceColor C.specularColor C.roughness C.metallic *
        (if light.castsShadows then C.shadowAmountWorld s.2 else 1),
      if light.castsShadows then s.2 + 1 else s.2)
  else if light.type = LIGHT_TYPE_DIRECTIONAL then
    (s.1 + ColorFromLight light C.normal C.worldPosition C.view
        C.surfaceColor C.specularColor C.roughness C.metallic *
        (if light.castsShadows then C.shadowAmountCascade else 1),
      s.2)
  else s

/-- The light accumulation loop in the pixel shader, folded over the active
light list in order, starting from a zero color total and shadow slot 0. -/
def accumulateLights (C : ShadeCtx) (l : List Light) : Vec3 × ℕ :=
  l.foldl (lightStep C) (0, 0)

/-- A light that both is a point light and casts shadows (consumes six
world shadow-map slots). -/
def isShadowPoint (l : Light) : Bool :=
  decide (l.type = LIGHT_TYPE_POINT) && l.castsShadows

/-- A light that both is a spot light and casts shadows (consumes one
world shadow-map slot). -/
def isShadowSpot (l : Light) : Bool :=
  decide (l.type = LIGHT_TYPE_SPOT) && l.castsShadows

/-- The world shadow-map factor the accumulation loop multiplies by for a
shadow-casting light of each type, given the current shadow slot index:
a point light reads slot `shadowIndex + directionIndex`, a spot light reads
slot `shadowIndex`, a directional light reads the cascade factor. -/
def shadowFactorAt (C : ShadeCtx) (light : Light) (shadowIndex : ℕ) : ℝ :=
  if light.type = LIGHT_TYPE_POINT then
    C.shadowAmountWorld (shadowIndex + pointDirectionIndex light C.worldPosition)
  else if light.type = LIGHT_TYPE_SPOT then
    C.shadowAmountWorld shadowIndex
  else if light.type = LIGHT_TYPE_DIRECTIONAL then
    C.shadowAmountCascade
  else 1

/-- The tail of the pixel shader: gamma-encode the accumulated direct
lighting, add the indirect diffuse term, and blend with the reflection
sample by the Fresnel term. -/
def finalComposite (loopColor indirectDiffuse reflectColor surfaceColor : Vec3)
    (indirectLightIntensity : ℝ) (view normal specularColor : Vec3) : Vec3 :=
  let finalColor := LightenToGamma loopColor
  let finalColor := finalColor +
    indirectDiffuse * LightenToGamma surfaceColor * indirectLightIntensity
  lerp3 finalColor reflectColor (Fresnel view normal specularColor)

/-- The final composite as the spec sentence words it, for comparison with
the source: the indirect diffuse sample is scaled only by the intensity
factor (no gamma-encoded surface-color factor). -/
def finalCompositeClaimed (loopColor indirectDiffuse reflectColor
    surfaceColor : Vec3) (indirectLightIntensity : ℝ)
    (view normal specularColor : Vec3) : Vec3 :=
  let finalColor := LightenToGamma loopColor
  let finalColor := finalColor + indirectDiffuse * indirectLightIntensity
  lerp3 finalColor reflectColor (Fresnel view normal specularColor)

/-! Helper lemmas. -/

theorem saturate_of_nonpos {v : ℝ} (h : v ≤ 0) : saturate v = 0 := by
  rw [saturate, max_eq_right h, min_eq_left zero_le_one]

/-- C9: the pixel shader transforms texture coordinates before any texture
sample to `(uv.x / uvScale - uvOffset.x, uv.y / uvScale + uvOffset.y)`:
the scale is applied as a division, the offset x component is subtracted and
the offset y component is added. -/
theorem uv_transform_formula (uv : Vec2) (uvScale : ℝ) (uvOffset : Vec2)
    (hs : uvScale ≠ 0) :
    transformUV uv uvScale uvOffset =
      ⟨uv.x / uvScale - uvOffset.x, uv.y / uvScale + uvOffset.y⟩ := rfl

theorem uv_transform_formula_witness :
    (2 : ℝ) ≠ 0 ∧
    transformUV ⟨1, 2⟩ 2 ⟨3, 4⟩ = ⟨1 / 2 - 3, 2 / 2 + 4⟩ :=
  ⟨by norm_num, uv_transform_formula ⟨1, 2⟩ 2 ⟨3, 4⟩ (by norm_num)⟩

/-- C8: the per-pixel roughness and metallic values are two-state
selectors: exactly when the flat uniform equals the sentinel `-1`, the
texture sample is used, and for every other flat value the flat uniform is
used unchanged; roughness is additionally floor-clamped to `MIN_ROUGHNESS`
after the selection. -/
theorem material_sentinel_selector (roughnessFlat metallicFlat rTex mTex : ℝ) :
    (roughnessFlat = -1 → selectRoughness roughnessFlat rTex = max rTex MIN_ROUGHNESS) ∧
    (roughnessFlat ≠ -1 →
      selectRoughness roughnessFlat rTex = max roughnessFlat MIN_ROUGHNESS) ∧
    (metallicFlat = -1 → selectMetallic metallicFlat mTex = mTex) ∧
    (metallicFlat ≠ -1 → selectMetallic metallicFlat mTex = metallicFlat) := by
  refine ⟨fun h => ?_, fun h => ?_, fun h => ?_, fun h => ?_⟩ <;>
    simp [selectRoughness, selectMetallic, h]

theorem material_sentinel_selector_witness :
    selectRoughness (-1) 0.5 = max 0.5 MIN_ROUGHNESS ∧
    selectRoughness 0.3 0.5 = max 0.3 MIN_ROUGHNESS ∧
    selectMetallic (-1) 0.5 = 0.5 ∧
    selectMetallic 0.3 0.5 = 0.3 :=
  ⟨(material_sentinel_selector (-1) (-1) 0.5 0.5).1 rfl,
   (material_sentinel_selector 0.3 0.3 0.5 0.5).2.1 (by norm_num),
   (material_sentinel_selector (-1) (-1) 0.5 0.5).2.2.1 rfl,
   (material_sentinel_selector 0.3 0.3 0.5 0.5).2.2.2 (by norm_num)⟩

/-- C6: for every light whose type tag is `LIGHT_TYPE_SPOT` and all surface
inputs, `ColorFromLight` returns the zero vector: the spot case is
unimplemented and falls through to the default zero contribution. -/
theorem colorFromLight_spot_zero (light : Light) (h : light.type = LIGHT_TYPE_SPOT)
    (normal worldPos view surfaceColor specularColor : Vec3)
    (roughness metallic : ℝ) :
    ColorFromLight light normal worldPos view surfaceColor specularColor
      roughness metallic = 0 := by
  simp [ColorFromLight, h, LIGHT_TYPE_SPOT, LIGHT_TYPE_DIRECTIONAL, LIGHT_TYPE_POINT]

/-- A concrete spot light used to witness the spot-case theorem. -/
def spotLightW : Light := ⟨LIGHT_TYPE_SPOT, 0, 0, 0, 0, 0, 0, false⟩

theorem colorFromLight_spot_zero_witness :
    ColorFromLight spotLightW 0 0 0 0 0 0 0 = 0 :=
  colorFromLight_spot_zero spotLightW rfl 0 0 0 0 0 0 0

/-- C7: for every point light with positive range, the attenuation factor
equals exactly 1 when the distance from the light position to the shaded
world position is 0, and equals exactly 0 whenever that distance is at
least the range. -/
theorem attenuate_endpoints (light : Light) (worldPos : Vec3)
    (hr : 0 < light.range) :
    (worldPos = light.position → Attenuate light worldPos = 1) ∧
    (light.range ≤ distance light.position worldPos →
      Attenuate light worldPos = 0) := by
  constructor
  · intro h
    subst h
    have hd : distance light.position light.position = 0 := by
      simp [distance, length, dot]
    simp [Attenuate, hd]
  · intro h
    have hd0 : 0 ≤ distance light.position worldPos := Real.sqrt_nonneg _
    have hpos : 0 < light.range * light.range := mul_pos hr hr
    have hsq : light.range * light.range ≤
        distance light.position worldPos * distance light.position worldPos := by
      nlinarith
    have hnp : 1 - distance light.position worldPos *
        distance light.position worldPos / (light.range * light.range) ≤ 0 := by
      rw [sub_nonpos, le_div_iff₀ hpos]
      linarith
    simp [Attenuate, saturate_of_nonpos hnp]

/-- A concrete point light of range 5 used to witness the attenuation
endpoint theorem. -/
def pointLightW : Light := ⟨LIGHT_TYPE_POINT, 0, 5, 0, 1, 1, 0, false⟩

theorem attenuate_endpoints_witness :
    Attenuate pointLightW pointLightW.position = 1 ∧
    Attenuate pointLightW ⟨3, 4, 0⟩ = 0 := by
  have hr : 0 < pointLightW.range := by norm_num [pointLightW]
  refine ⟨(attenuate_endpoints pointLightW pointLightW.position hr).1 rfl, ?_⟩
  have hdist : distance pointLightW.position ⟨3, 4, 0⟩ = 5 := by
    have hdd : dot ((⟨3, 4, 0⟩ : Vec3) - pointLightW.position)
        ((⟨3, 4, 0⟩ : Vec3) - pointLightW.position) = 25 := by
      simp [pointLightW, dot]
      norm_num
    rw [distance, length, hdd, show (25 : ℝ) = 5 ^ 2 by norm_num,
      Real.sqrt_sq (by norm_num : (0 : ℝ) ≤ 5)]
  exact (attenuate_endpoints pointLightW ⟨3, 4, 0⟩ hr).2
    (by rw [hdist]; norm_num [pointLightW])

/-- C4: for every roughness at least 0 and all unit vectors `n` and `h`
(including roughness 0 exactly with `h` aligned to `n`), the denominator of
`SpecDistribution` is strictly positive (the `MIN_ROUGHNESS` clamp makes
the division-by-zero branch unreachable), and the value of the function is the
clamped numerator divided by that positive denominator, hence a finite real
number. -/
theorem specDistribution_denominator_pos (n h : Vec3) (roughness : ℝ)
    (hr : 0 ≤ roughness) (hn : dot n n = 1) (hh : dot h h = 1) :
    0 < SpecDistributionDenom n h roughness ∧
    SpecDistribution n h roughness =
      max (roughness * roughness * (roughness * roughness)) MIN_ROUGHNESS /
        SpecDistributionDenom n h roughness := by
  refine ⟨?_, rfl⟩
  have hs0 := saturate_nonneg (dot n h)
  have hs1 := saturate_le_one (dot n h)
  have ht0 : 0 ≤ saturate (dot n h) * saturate (dot n h) := mul_nonneg hs0 hs0
  have ht1 : saturate (dot n h) * saturate (dot n h) ≤ 1 :=
    mul_le_one₀ hs1 hs0 hs1
  have hA : MIN_ROUGHNESS ≤
      max (roughness * roughness * (roughness * roughness)) MIN_ROUGHNESS :=
    le_max_right _ _
  have hMR : (0 : ℝ) < MIN_ROUGHNESS := by norm_num [MIN_ROUGHNESS]
  have hPI : (0 : ℝ) < PI := by norm_num [PI]
  set t := saturate (dot n h) * saturate (dot n h) with hts
  set A := max (roughness * roughness * (roughness * roughness)) MIN_ROUGHNESS
    with hAs
  have hd : 0 < t * (A - 1) + 1 := by
    rcases le_or_lt A 1 with hA1 | hA1
    · nlinarith [mul_nonneg (sub_nonneg.mpr ht1) (sub_nonneg.mpr hA1)]
    · nlinarith [mul_nonneg ht0 (by linarith : (0 : ℝ) ≤ A - 1)]
  show 0 < PI * (t * (A - 1) + 1) * (t * (A - 1) + 1)
  exact mul_pos (mul_pos hPI hd) hd

theorem specDistribution_denominator_pos_witness :
    (0 : ℝ) ≤ 0 ∧
    dot (⟨0, 1, 0⟩ : Vec3) ⟨0, 1, 0⟩ = 1 ∧
    (0 < SpecDistributionDenom ⟨0, 1, 0⟩ ⟨0, 1, 0⟩ 0 ∧
      SpecDistribution ⟨0, 1, 0⟩ ⟨0, 1, 0⟩ 0 =
        max ((0 : ℝ) * 0 * (0 * 0)) MIN_ROUGHNESS /
          SpecDistributionDenom ⟨0, 1, 0⟩ ⟨0, 1, 0⟩ 0) :=
  ⟨le_refl 0, by norm_num [dot],
    specDistribution_denominator_pos ⟨0, 1, 0⟩ ⟨0, 1, 0⟩ 0 (le_refl 0)
      (by norm_num [dot]) (by norm_num [dot])⟩

/-- C2: in directional cascade shadow sampling, if the projected shadow UV
in the selected cascade falls within 1% of any border and a next cascade
exists, the cascade index advances by one and the shadow UV and depth are
recomputed from the shadow-space position of that next cascade. -/
theorem cascadeBorder_advances (positions : ℕ → Vec4)
    (numShadowCascade cascadeIndex : ℕ)
    (hb : cascadeBorderHit (computeCascadeUV (positions cascadeIndex)))
    (hnext : cascadeIndex + 1 < numShadowCascade) :
    cascadeCorrect positions numShadowCascade cascadeIndex =
      (cascadeIndex + 1, computeCascadeUV (positions (cascadeIndex + 1)),
        (positions (cascadeIndex + 1)).z / (positions (cascadeIndex + 1)).w) := by
  have hcond : cascadeBorderHit (computeCascadeUV (positions cascadeIndex)) ∧
      cascadeIndex + 1 < numShadowCascade := ⟨hb, hnext⟩
  simp [cascadeCorrect, hcond]

/-- Concrete shadow-space positions used to witness the cascade-border
theorem: cascade 0 projects the pixel to shadow UV (0.005, 0.5). -/
def cascadePositionsW : ℕ → Vec4 :=
  fun n => if n = 0 then ⟨-0.99, 0, 0.3, 1⟩ else ⟨0.2, 0.4, 0.6, 1⟩

theorem cascadeBorder_advances_witness :
    computeCascadeUV (cascadePositionsW 0) = ⟨0.005, 0.5⟩ ∧
    cascadeCorrect cascadePositionsW 2 0 =
      (1, computeCascadeUV (cascadePositionsW 1),
        (cascadePositionsW 1).z / (cascadePositionsW 1).w) := by
  constructor
  · norm_num [cascadePositionsW, computeCascadeUV]
  · exact cascadeBorder_advances cascadePositionsW 2 0
      (by norm_num [cascadePositionsW, computeCascadeUV, cascadeBorderHit])
      (by norm_num)

/-- Counterexample for C5: the composite of the source multiplies the
indirect diffuse term additionally by the gamma-encoded surface color, so
it differs from the claimed composite (indirect diffuse scaled only by the
intensity factor) at a black surface color. -/
theorem composite_missing_surface_factor :
    finalComposite 0 ⟨1, 1, 1⟩ 0 0 1 ⟨0, 1, 0⟩ ⟨0, 1, 0⟩ 0 ≠
      finalCompositeClaimed 0 ⟨1, 1, 1⟩ 0 0 1 ⟨0, 1, 0⟩ ⟨0, 1, 0⟩ 0 := by
  intro hEq
  have hx := congrArg Vec3.x hEq
  have hzr : ((0 : ℝ) ^ ((1 : ℝ) / 2.2)) = 0 := Real.zero_rpow (by norm_num)
  simp only [finalComposite, finalCompositeClaimed, LightenToGamma, lerp3,
    Fresnel, saturate, dot, Vec3.zero_x, Vec3.zero_y, Vec3.zero_z, Vec3.add_x,
    Vec3.sub_x, Vec3.mul_x, Vec3.smul_x, Vec3.one_x, hzr] at hx
  norm_num at hx

/-- C5 (amended): the final per-pixel color is the accumulated direct
lighting gamma-encoded, plus the indirect diffuse sample multiplied by the
gamma-encoded unlit surface color and scaled by the user-controlled
indirect intensity factor, the whole then linearly blended with the
environment reflection sample using the Fresnel term at the view vector
and surface normal as the blend weight. -/
theorem composite_order_amended (loopColor indirectDiffuse reflectColor
    surfaceColor : Vec3) (indirectLightIntensity : ℝ)
    (view normal specularColor : Vec3) :
    finalComposite loopColor indirectDiffuse reflectColor surfaceColor
        indirectLightIntensity view normal specularColor =
      lerp3 (LightenToGamma loopColor +
          indirectDiffuse * LightenToGamma surfaceColor * indirectLightIntensity)
        reflectColor (Fresnel view normal specularColor) := rfl

/-! The slot-index accounting of the light accumulation loop. -/

theorem lightStep_snd (C : ShadeCtx) (s : Vec3 × ℕ) (light : Light) :
    (lightStep C s light).2 = s.2 +
      (if light.castsShadows then
        (if light.type = LIGHT_TYPE_POINT then 6
          else if light.type = LIGHT_TYPE_SPOT then 1 else 0)
        else 0) := by
  by_cases h1 : light.type = LIGHT_TYPE_POINT
  · cases hc : light.castsShadows <;>
      simp [lightStep, h1, hc, LIGHT_TYPE_POINT, LIGHT_TYPE_SPOT]
  · by_cases h2 : light.type = LIGHT_TYPE_SPOT
    · cases hc : light.castsShadows <;>
        simp [lightStep, h1, h2, hc, LIGHT_TYPE_POINT, LIGHT_TYPE_SPOT]
    · by_cases h0 : light.type = LIGHT_TYPE_DIRECTIONAL
      · cases hc : light.castsShadows <;>
          simp [lightStep, h1, h2, h0, hc, LIGHT_TYPE_DIRECTIONAL,
            LIGHT_TYPE_POINT, LIGHT_TYPE_SPOT]
      · cases hc : light.castsShadows <;> simp [lightStep, h1, h2, h0, hc]

theorem accumulate_snd (C : ShadeCtx) :
    ∀ (l : List Light) (s : Vec3 × ℕ),
      (l.foldl (lightStep C) s).2 =
        s.2 + 6 * l.countP isShadowPoint + l.countP isShadowSpot := by
  intro l
  induction l with
  | nil => intro s; simp
  | cons a l ih =>
    intro s
    rw [List.foldl_cons, ih, lightStep_snd, List.countP_cons, List.countP_cons]
    by_cases h1 : a.type = LIGHT_TYPE_POINT
    · have h2 : ¬a.type = LIGHT_TYPE_SPOT := by
        rw [h1]; decide
      cases hc : a.castsShadows <;>
        simp [isShadowPoint, isShadowSpot, h1, h2, hc, LIGHT_TYPE_POINT,
          LIGHT_TYPE_SPOT] <;> omega
    · by_cases h2 : a.type = LIGHT_TYPE_SPOT
      · cases hc : a.castsShadows <;>
          simp [isShadowPoint, isShadowSpot, h1, h2, hc, LIGHT_TYPE_POINT,
            LIGHT_TYPE_SPOT] <;> omega
      · cases hc : a.castsShadows <;>
          simp [isShadowPoint, isShadowSpot, h1, h2, hc]

theorem colorFromLight_default (light : Light)
    (h0 : light.type ≠ LIGHT_TYPE_DIRECTIONAL)
    (h1 : light.type ≠ LIGHT_TYPE_POINT)
    (normal worldPos view surfaceColor specularColor : Vec3)
    (roughness metallic : ℝ) :
    ColorFromLight light normal worldPos view surfaceColor specularColor
      roughness metallic = 0 := by
  simp [ColorFromLight, h0, h1]

theorem lightStep_fst (C : ShadeCtx) (s : Vec3 × ℕ) (light : Light) :
    (lightStep C s light).1 = s.1 +
      ColorFromLight light C.normal C.worldPosition C.view C.surfaceColor
        C.specularColor C.roughness C.metallic *
        (if light.castsShadows then shadowFactorAt C light s.2 else 1) := by
  by_cases h1 : light.type = LIGHT_TYPE_POINT
  · simp [lightStep, shadowFactorAt, h1, LIGHT_TYPE_POINT, LIGHT_TYPE_SPOT]
  · by_cases h2 : light.type = LIGHT_TYPE_SPOT
    · simp [lightStep, shadowFactorAt, h1, h2, LIGHT_TYPE_POINT, LIGHT_TYPE_SPOT]
    · by_cases h0 : light.type = LIGHT_TYPE_DIRECTIONAL
      · simp [lightStep, shadowFactorAt, h1, h2, h0, LIGHT_TYPE_DIRECTIONAL,
          LIGHT_TYPE_POINT, LIGHT_TYPE_SPOT]
      · rw [colorFromLight_default light h0 h1, Vec3.zero_smul, Vec3.add_zero]
        simp [lightStep, h1, h2, h0]

/-- C1: in the lighting accumulation loop, for every light list, the
unshadowed radiance of each light is multiplied by a shadow factor exactly
when the casts-shadows flag of that light is set (otherwise by 1, fully lit),
and the world-space shadow slot index consumed for a light equals 6 times
the number of preceding shadow-casting point lights plus the number of
preceding shadow-casting spot lights: the slot index advances only for
shadow-casting lights, by 6 for a point light and by 1 for a spot light,
in light-list order. -/
theorem lighting_loop_shadow_accounting (C : ShadeCtx)
    (l1 l2 : List Light) (light : Light) :
    (accumulateLights C l1).2 =
      6 * l1.countP isShadowPoint + l1.countP isShadowSpot ∧
    accumulateLights C (l1 ++ light :: l2) =
      l2.foldl (lightStep C) (lightStep C (accumulateLights C l1) light) ∧
    (lightStep C (accumulateLights C l1) light).1 =
      (accumulateLights C l1).1 +
        ColorFromLight light C.normal C.worldPosition C.view C.surfaceColor
          C.specularColor C.roughness C.metallic *
          (if light.castsShadows then
            shadowFactorAt C light (accumulateLights C l1).2 else 1) ∧
    (lightStep C (accumulateLights C l1) light).2 =
      (accumulateLights C l1).2 +
        (if light.castsShadows then
          (if light.type = LIGHT_TYPE_POINT then 6
            else if light.type = LIGHT_TYPE_SPOT then 1 else 0)
          else 0) := by
  refine ⟨?_, ?_, lightStep_fst C _ light, lightStep_snd C _ light⟩
  · rw [accumulateLights, accumulate_snd C l1 (0, 0)]
    simp
  · simp [accumulateLights, List.foldl_append]

/-- C10: a light whose type tag is none of directional, point or spot hits
the default case of the accumulation loop: it adds nothing to the running
color total, leaves the shadow slot index unchanged, and the final pixel
color equals the color computed with that light removed from the light
list. -/
theorem unknown_light_noop (C : ShadeCtx) (l1 l2 : List Light) (light : Light)
    (h0 : light.type ≠ LIGHT_TYPE_DIRECTIONAL)
    (h1 : light.type ≠ LIGHT_TYPE_POINT)
    (h2 : light.type ≠ LIGHT_TYPE_SPOT)
    (indirectDiffuse reflectColor surfaceColor : Vec3)
    (indirectLightIntensity : ℝ) (view normal specularColor : Vec3) :
    lightStep C (accumulateLights C l1) light = accumulateLights C l1 ∧
    accumulateLights C (l1 ++ light :: l2) = accumulateLights C (l1 ++ l2) ∧
    finalComposite (accumulateLights C (l1 ++ light :: l2)).1 indirectDiffuse
        reflectColor surfaceColor indirectLightIntensity view normal
        specularColor =
      finalComposite (accumulateLights C (l1 ++ l2)).1 indirectDiffuse
        reflectColor surfaceColor indirectLightIntensity view normal
        specularColor := by
  have hstep : ∀ s, lightStep C s light = s := fun s => by
    simp [lightStep, h0, h1, h2]
  have hacc : accumulateLights C (l1 ++ light :: l2) =
      accumulateLights C (l1 ++ l2) := by
    simp [accumulateLights, List.foldl_append, hstep]
  exact ⟨hstep _, hacc, by rw [hacc]⟩

/-- A concrete shading context used to witness the loop theorems. -/
def ctxW : ShadeCtx := ⟨0, 0, 0, 0, 0, 0, 0, fun _ => 0, 0⟩

/-- A concrete light with the unknown type tag 5. -/
def unknownLightW : Light := ⟨5, 0, 0, 0, 0, 0, 0, true⟩

theorem unknown_light_noop_witness :
    lightStep ctxW (accumulateLights ctxW []) unknownLightW =
      accumulateLights ctxW [] ∧
    accumulateLights ctxW ([] ++ unknownLightW :: []) =
      accumulateLights ctxW ([] ++ []) ∧
    finalComposite (accumulateLights ctxW ([] ++ unknownLightW :: [])).1
        0 0 0 0 0 0 0 =
      finalComposite (accumulateLights ctxW ([] ++ [])).1 0 0 0 0 0 0 0 :=
  unknown_light_noop ctxW [] [] unknownLightW
    (by norm_num [unknownLightW, LIGHT_TYPE_DIRECTIONAL])
    (by norm_num [unknownLightW, LIGHT_TYPE_POINT])
    (by norm_num [unknownLightW, LIGHT_TYPE_SPOT])
    0 0 0 0 0 0 0

/-! The cube-face selection loop maximizes the dot product. -/

theorem Vec3.sub_eq_zero_iff {a b : Vec3} : a - b = 0 ↔ a = b := by
  constructor
  · intro h
    have hx := congrArg Vec3.x h
    have hy := congrArg Vec3.y h
    have hz := congrArg Vec3.z h
    simp only [Vec3.sub_x, Vec3.sub_y, Vec3.sub_z, Vec3.zero_x, Vec3.zero_y,
      Vec3.zero_z] at hx hy hz
    ext
    · linarith
    · linarith
    · linarith
  · intro h
    subst h
    ext <;> simp

theorem dot_self_nonneg (v : Vec3) : 0 ≤ dot v v := by
  have := mul_self_nonneg v.x
  have := mul_self_nonneg v.y
  have := mul_self_nonneg v.z
  rw [dot]
  linarith

theorem dot_self_eq_zero {v : Vec3} (h : dot v v = 0) : v = 0 := by
  rw [dot] at h
  have hx2 : v.x * v.x = 0 :=
    le_antisymm (by nlinarith [mul_self_nonneg v.y, mul_self_nonneg v.z])
      (mul_self_nonneg v.x)
  have hy2 : v.y * v.y = 0 :=
    le_antisymm (by nlinarith [mul_self_nonneg v.x, mul_self_nonneg v.z])
      (mul_self_nonneg v.y)
  have hz2 : v.z * v.z = 0 :=
    le_antisymm (by nlinarith [mul_self_nonneg v.x, mul_self_nonneg v.y])
      (mul_self_nonneg v.z)
  ext
  · exact mul_self_eq_zero.mp hx2
  · exact mul_self_eq_zero.mp hy2
  · exact mul_self_eq_zero.mp hz2

theorem dot_self_pos {v : Vec3} (h : v ≠ 0) : 0 < dot v v := by
  rcases (dot_self_nonneg v).lt_or_eq with hlt | heq
  · exact hlt
  · exact absurd (dot_self_eq_zero heq.symm) h

/-- The invariant of the cube-face selection fold: the running maximum
never decreases, bounds every processed dot product, and is either still
the initial state or achieved by the recorded index. -/
theorem faceFold_inv (u : Vec3) (l : List ℕ) : ∀ s : ℝ × ℕ,
    s.1 ≤ (l.foldl (faceStep u) s).1 ∧
    (∀ j ∈ l, dot u (cubeFaceDirections j) ≤ (l.foldl (faceStep u) s).1) ∧
    ((l.foldl (faceStep u) s) = s ∨
      ∃ j ∈ l, (l.foldl (faceStep u) s).2 = j ∧
        dot u (cubeFaceDirections j) = (l.foldl (faceStep u) s).1) := by
  induction l with
  | nil => exact fun s => ⟨le_refl _, by simp, Or.inl rfl⟩
  | cons a l ih =>
    intro s
    rw [List.foldl_cons]
    obtain ⟨ih1, ih2, ih3⟩ := ih (faceStep u s a)
    by_cases h : dot u (cubeFaceDirections a) ≥ s.1
    · have hstep : faceStep u s a = (dot u (cubeFaceDirections a), a) := by
        rw [faceStep]
        simp [h, max_eq_left h]
      refine ⟨?_, ?_, ?_⟩
      · calc s.1 ≤ dot u (cubeFaceDirections a) := h
          _ = (faceStep u s a).1 := by rw [hstep]
          _ ≤ _ := ih1
      · intro j hj
        rcases List.mem_cons.mp hj with rfl | hj
        · calc dot u (cubeFaceDirections j) = (faceStep u s j).1 := by rw [hstep]
            _ ≤ _ := ih1
        · exact ih2 j hj
      · rcases ih3 with heq | ⟨j, hj, hidx, hdot⟩
        · refine Or.inr ⟨a, List.mem_cons_self a l, ?_, ?_⟩
          · rw [heq, hstep]
          · rw [heq, hstep]
        · exact Or.inr ⟨j, List.mem_cons_of_mem a hj, hidx, hdot⟩
    · have hlt : dot u (cubeFaceDirections a) < s.1 := lt_of_not_ge h
      have hstep : faceStep u s a = s := by
        rw [faceStep]
        simp [h, max_eq_right (le_of_lt hlt)]
      rw [hstep] at ih1 ih2 ih3 ⊢
      refine ⟨ih1, ?_, ?_⟩
      · intro j hj
        rcases List.mem_cons.mp hj with rfl | hj
        · exact le_trans (le_of_lt hlt) ih1
        · exact ih2 j hj
      · rcases ih3 with heq | ⟨j, hj, hidx, hdot⟩
        · exact Or.inl heq
        · exact Or.inr ⟨j, List.mem_cons_of_mem a hj, hidx, hdot⟩

/-- Some cube face has a strictly positive dot product with any nonzero
direction. -/
theorem exists_face_pos {u : Vec3} (hu : u ≠ 0) :
    ∃ j ∈ List.range 6, 0 < dot u (cubeFaceDirections j) := by
  have hcomp : u.x ≠ 0 ∨ u.y ≠ 0 ∨ u.z ≠ 0 := by
    by_contra hall
    push_neg at hall
    exact hu (by ext <;> simp [hall.1, hall.2.1, hall.2.2])
  rcases hcomp with hx | hy | hz
  · rcases hx.lt_or_lt with hneg | hpos
    · exact ⟨1, by decide, by simp [dot, cubeFaceDirections]; linarith⟩
    · exact ⟨0, by decide, by simp [dot, cubeFaceDirections]; linarith⟩
  · rcases hy.lt_or_lt with hneg | hpos
    · exact ⟨3, by decide, by simp [dot, cubeFaceDirections]; linarith⟩
    · exact ⟨2, by decide, by simp [dot, cubeFaceDirections]; linarith⟩
  · rcases hz.lt_or_lt with hneg | hpos
    · exact ⟨5, by decide, by simp [dot, cubeFaceDirections]; linarith⟩
    · exact ⟨4, by decide, by simp [dot, cubeFaceDirections]; linarith⟩

theorem normalize_ne_zero {v : Vec3} (hv : v ≠ 0) : normalize v ≠ 0 := by
  have hdd : 0 < dot v v := dot_self_pos hv
  have hlen : 0 < length v := Real.sqrt_pos.mpr hdd
  intro h0
  apply hv
  have hx := congrArg Vec3.x h0
  have hy := congrArg Vec3.y h0
  have hz := congrArg Vec3.z h0
  simp only [normalize, Vec3.div_x, Vec3.div_y, Vec3.div_z, Vec3.zero_x,
    Vec3.zero_y, Vec3.zero_z] at hx hy hz
  have hlen0 : length v ≠ 0 := ne_of_gt hlen
  ext
  · simpa [div_eq_zero_iff, hlen0] using hx
  · simpa [div_eq_zero_iff, hlen0] using hy
  · simpa [div_eq_zero_iff, hlen0] using hz

/-- C3: for every shadow-casting point light and every pixel position
distinct from the light position, the cube-face slot offset selected by the
loop is an index below 6 that maximizes the dot product between the
normalized direction from the light position to the world position of the pixel
and the canonical cube-face axis directions. -/
theorem point_cubeFace_argmax (light : Light) (worldPos : Vec3)
    (hc : light.castsShadows = true) (hne : worldPos ≠ light.position) :
    pointDirectionIndex light worldPos < 6 ∧
    ∀ j < 6,
      dot (normalize (worldPos - light.position)) (cubeFaceDirections j) ≤
        dot (normalize (worldPos - light.position))
          (cubeFaceDirections (pointDirectionIndex light worldPos)) := by
  have hd : worldPos - light.position ≠ 0 := fun h =>
    hne (Vec3.sub_eq_zero_iff.mp h)
  set u := normalize (worldPos - light.position) with hu
  have hun : u ≠ 0 := normalize_ne_zero hd
  obtain ⟨j0, hj0mem, hj0pos⟩ := exists_face_pos hun
  obtain ⟨inv1, inv2, inv3⟩ := faceFold_inv u (List.range 6) (0, 0)
  have hsel : pointDirectionIndex light worldPos =
      ((List.range 6).foldl (faceStep u) (0, 0)).2 := by
    rw [pointDirectionIndex, if_pos hc, faceSelect]
  rcases inv3 with heq | ⟨jm, hjm, hidx, hdot⟩
  · exfalso
    have h2 := inv2 j0 hj0mem
    rw [heq] at h2
    exact absurd (lt_of_lt_of_le hj0pos h2) (by norm_num)
  · constructor
    · rw [hsel, hidx]
      exact List.mem_range.mp hjm
    · intro j hj
      have hle := inv2 j (List.mem_range.mpr hj)
      rw [hsel, hidx, hdot]
      exact hle

/-- A concrete shadow-casting point light at the origin. -/
def pointLightAtOrigin : Light := ⟨LIGHT_TYPE_POINT, 0, 1, 0, 1, 1, 0, true⟩

theorem point_cubeFace_argmax_witness :
    cubeFaceDirections (pointDirectionIndex pointLightAtOrigin ⟨0, 1, 0⟩) =
      ⟨0, 1, 0⟩ ∧
    ∀ j < 6,
      dot (normalize ((⟨0, 1, 0⟩ : Vec3) - pointLightAtOrigin.position))
          (cubeFaceDirections j) ≤
        dot (normalize ((⟨0, 1, 0⟩ : Vec3) - pointLightAtOrigin.position))
          (cubeFaceDirections
            (pointDirectionIndex pointLightAtOrigin ⟨0, 1, 0⟩)) := by
  have hne : (⟨0, 1, 0⟩ : Vec3) ≠ pointLightAtOrigin.position := by
    intro h
    have := congrArg Vec3.y h
    simp [pointLightAtOrigin] at this
  have hsub : (⟨0, 1, 0⟩ : Vec3) - pointLightAtOrigin.position = ⟨0, 1, 0⟩ := by
    ext <;> simp [pointLightAtOrigin]
  have hnorm : normalize (⟨0, 1, 0⟩ : Vec3) = ⟨0, 1, 0⟩ := by
    have hlen : length (⟨0, 1, 0⟩ : Vec3) = 1 := by
      rw [length, show dot ⟨0, 1, 0⟩ ⟨0, 1, 0⟩ = 1 by norm_num [dot],
        Real.sqrt_one]
    ext <;> simp [normalize, hlen]
  have hrange : List.range 6 = [0, 1, 2, 3, 4, 5] := by decide
  have hidx : pointDirectionIndex pointLightAtOrigin ⟨0, 1, 0⟩ = 2 := by
    rw [pointDirectionIndex,
      if_pos (show pointLightAtOrigin.castsShadows = true from rfl),
      hsub, hnorm, faceSelect, hrange]
    norm_num [faceStep, dot, cubeFaceDirections]
  exact ⟨by rw [hidx]; rfl,
    (point_cubeFace_argmax pointLightAtOrigin ⟨0, 1, 0⟩ rfl hne).2⟩

end Shader
